import Mathlib

/-!
Verification development for the uplink Demul stage (equalization +
phase tracking + soft demodulation) of the massive-MIMO baseband
pipeline, shallowly embedded from `src/agora/dodemul.cc` (with the
older variant `src/millipede/dodemul.cpp` and the client dispatch in
`src/client/ue_worker.cc`).

Buffers of complex samples are embedded as functions `ℕ → α` (index =
element offset in the underlying array); pointer walks that write into
a buffer are embedded as lists of (position, value) writes applied in
program order via `Function.update`.  Complex single-precision floats
are embedded as exact complex numbers `ℂ`; `size_t` arithmetic is
embedded as `ℕ` with explicit `% 2 ^ 64` where wraparound matters.
-/

namespace AgoraDemul

/-- Number of subcarriers per cache line: 64-byte cache line /
8-byte `complex_float`.  Modelled from the spec: the constant
`kSCsPerCacheline` (the SIMD cache-line subcarrier width) is declared
outside `src/`; the gather loops of `dodemul.cc` step by it and the
code comments state it divides `demul_block_size` and
`kTransposeBlockSize`. -/
def kSCsPerCacheline : ℕ := 8

/-- `kUseSIMDGather` from `dodemul.cc` line 9. -/
def kUseSIMDGather : Bool := true

/-- `max_sc_ite = std::min(cfg_->DemulBlockSize(), cfg_->OfdmDataNum() -
base_sc_id)` from `dodemul.cc` lines 100-101. -/
def maxScIte (demulBlockSize ofdmDataNum baseScId : ℕ) : ℕ :=
  min demulBlockSize (ofdmDataNum - baseScId)

/-! ### Buffer writes

A pointer walk writing values into an array is embedded as a list of
(position, value) pairs applied left-to-right. -/

/-- Apply a list of writes to a buffer, in program order. -/
def writeBuf (l : List (ℕ × α)) (buf : ℕ → α) : ℕ → α :=
  l.foldl (fun b pv => Function.update b pv.1 pv.2) buf

theorem writeBuf_nil (buf : ℕ → α) : writeBuf [] buf = buf := rfl

theorem writeBuf_cons (p : ℕ) (v : α) (l : List (ℕ × α)) (buf : ℕ → α) :
    writeBuf ((p, v) :: l) buf = writeBuf l (Function.update buf p v) := rfl

/-- A position never written keeps its previous contents. -/
theorem writeBuf_of_not_mem (l : List (ℕ × α)) (buf : ℕ → α) (p : ℕ)
    (h : p ∉ l.map Prod.fst) : writeBuf l buf p = buf p := by
  induction l generalizing buf with
  | nil => rfl
  | cons hd tl ih =>
    simp only [List.map_cons, List.mem_cons] at h
    push_neg at h
    rw [writeBuf_cons]
    rw [ih _ h.2, Function.update_noteq h.1]

/-- If all write positions are distinct, a written position holds the
value written to it. -/
theorem writeBuf_of_mem (l : List (ℕ × α)) (buf : ℕ → α) (p : ℕ) (v : α)
    (hnd : (l.map Prod.fst).Nodup) (hm : (p, v) ∈ l) :
    writeBuf l buf p = v := by
  induction l generalizing buf with
  | nil => cases hm
  | cons hd tl ih =>
    simp only [List.map_cons, List.nodup_cons] at hnd
    rcases List.mem_cons.1 hm with h | h
    · subst h
      rw [writeBuf_cons, writeBuf_of_not_mem _ _ _ hnd.1,
        Function.update_same]
    · exact (writeBuf_cons _ _ _ _) ▸ ih _ hnd.2 h

/-! ### Gather/Transpose Unit (`dodemul.cc` lines 104-176)

For one cache-line group starting at subcarrier `sc0 = base_sc_id + i`,
the gather stage fills `data_gather_buffer_` as a row-major matrix with
`kSCsPerCacheline` rows (subcarriers) and `bsAntNum` columns
(antennas).  `data` is `data_buf` viewed at complex-sample granularity.
-/

/-- `partial_transpose_block_base` from `dodemul.cc` lines 113-115:
`((base_sc_id + i) / kTransposeBlockSize) * (kTransposeBlockSize *
cfg_->BsAntNum())`. -/
def partialTransposeBlockBase (bsAntNum kTransposeBlockSize sc0 : ℕ) : ℕ :=
  (sc0 / kTransposeBlockSize) * (kTransposeBlockSize * bsAntNum)

/-- Source sample gathered by the scalar loop (`dodemul.cc` lines
168-173) for row `j` (subcarrier `sc0 + j`), column `ant`:
partial-transpose layout when `usePartialTrans`, else
contiguous-per-antenna layout. -/
def scalarGatherVal (usePartialTrans : Bool) (bsAntNum kTransposeBlockSize
    ofdmDataNum sc0 : ℕ) (data : ℕ → α) (j ant : ℕ) : α :=
  if usePartialTrans then
    data (partialTransposeBlockBase bsAntNum kTransposeBlockSize sc0 +
      ant * kTransposeBlockSize + (sc0 + j) % kTransposeBlockSize)
  else
    data (ant * ofdmDataNum + sc0 + j)

/-- The scalar gather walk (`dodemul.cc` lines 165-175): `dst` starts at
`data_gather_buffer_` (with `ant_start = 0` in this branch) and is
incremented once per element, looping `j` over the cache line (outer)
and `ant` over the antennas (inner), so the `n`-th write lands at
position `n` with `j = n / bsAntNum`, `ant = n % bsAntNum`. -/
def scalarGatherWrites (usePartialTrans : Bool) (bsAntNum kTransposeBlockSize
    ofdmDataNum sc0 : ℕ) (data : ℕ → α) : List (ℕ × α) :=
  (List.range (kSCsPerCacheline * bsAntNum)).map fun n =>
    (n, scalarGatherVal usePartialTrans bsAntNum kTransposeBlockSize
      ofdmDataNum sc0 data (n / bsAntNum) (n % bsAntNum))

/-- Source sample moved by one lane pair of the AVX2 SIMD gather
(`dodemul.cc` lines 147-160).  For antenna block `b` (4 antennas per
iteration), cache-line row `j`, lane pair `k < 4`: the gather reads the
complex sample at float offsets `(src + j*2)[2*k*T]`, `[2*k*T + 1]`
where `src` has advanced `b * 4 * T` complex samples past
`cur_sc_offset = partial_transpose_block_base + sc0 % T`. -/
def simdGatherVal (bsAntNum kTransposeBlockSize sc0 : ℕ) (data : ℕ → α)
    (b j k : ℕ) : α :=
  data (partialTransposeBlockBase bsAntNum kTransposeBlockSize sc0 +
    sc0 % kTransposeBlockSize + b * (4 * kTransposeBlockSize) + j +
    k * kTransposeBlockSize)

/-- Destination position of that lane pair: the store
`_mm256_store_ps(dst + j * bsAntNum * 2, …)` writes 4 consecutive
complex samples at complex position `j * bsAntNum + 4 * b`, `dst`
having advanced 4 complex samples per antenna block. -/
def simdGatherPos (bsAntNum : ℕ) (b j k : ℕ) : ℕ :=
  j * bsAntNum + 4 * b + k

/-- The SIMD gather walk (`dodemul.cc` lines 147-160): antenna blocks
outer (`ant_i += 4`), rows `j` middle, the 4 complex lanes of each
256-bit store inner, i.e. the `n`-th elementary write has
`b = n / 32`, `j = (n % 32) / 4`, `k = n % 4`. -/
def simdGatherWrites (bsAntNum kTransposeBlockSize sc0 : ℕ)
    (data : ℕ → α) : List (ℕ × α) :=
  (List.range (bsAntNum / 4 * 32)).map fun n =>
    (simdGatherPos bsAntNum (n / 32) (n % 32 / 4) (n % 4),
     simdGatherVal bsAntNum kTransposeBlockSize sc0 data
       (n / 32) (n % 32 / 4) (n % 4))

/-- The gather stage for one cache-line group (`dodemul.cc` lines
117-176): the SIMD path runs when `kUseSIMDGather`, the antenna count
is a multiple of 4, and the partial-transpose layout is in use
(`kUsePartialTrans`); otherwise the scalar loop gathers all antennas
(`ant_start = 0`). -/
def gatherStage (useSIMDGather usePartialTrans : Bool)
    (bsAntNum kTransposeBlockSize ofdmDataNum sc0 : ℕ) (data : ℕ → α)
    (buf : ℕ → α) : ℕ → α :=
  if useSIMDGather = true ∧ bsAntNum % 4 = 0 ∧ usePartialTrans = true then
    writeBuf (simdGatherWrites bsAntNum kTransposeBlockSize sc0 data) buf
  else
    writeBuf (scalarGatherWrites usePartialTrans bsAntNum
      kTransposeBlockSize ofdmDataNum sc0 data) buf

/-- Reference per-layout gather, stated from the spec's words (§4.2):
the sample for antenna `a` and subcarrier `s` sits at offset
`a * NumSubcarriers + s` in the contiguous-per-antenna layout, and at
`block_base + a * T + (s mod T)` in the partial-transpose layout, with
`block_base` the start of `s`'s own block. -/
def refGatherVal (usePartialTrans : Bool) (bsAntNum kTransposeBlockSize
    ofdmDataNum : ℕ) (data : ℕ → α) (s a : ℕ) : α :=
  if usePartialTrans then
    data ((s / kTransposeBlockSize) * (kTransposeBlockSize * bsAntNum) +
      a * kTransposeBlockSize + s % kTransposeBlockSize)
  else
    data (a * ofdmDataNum + s)

/-! ### Gather entry lemmas -/

theorem scalarGatherWrites_map_fst (usePartialTrans : Bool)
    (bsAntNum kTransposeBlockSize ofdmDataNum sc0 : ℕ) (data : ℕ → α) :
    (scalarGatherWrites usePartialTrans bsAntNum kTransposeBlockSize
      ofdmDataNum sc0 data).map Prod.fst =
    List.range (kSCsPerCacheline * bsAntNum) := by
  simp [scalarGatherWrites, List.map_map, Function.comp_def]

/-- Decomposition of a row-major index: `j * A + c` with `c < A`
determines row `j` and column `c` uniquely. -/
theorem rowMajor_div (A j c : ℕ) (hc : c < A) : (j * A + c) / A = j := by
  rw [mul_comm, Nat.mul_add_div (Nat.zero_lt_of_lt hc),
    Nat.div_eq_of_lt hc, add_zero]

theorem rowMajor_mod (A j c : ℕ) (hc : c < A) : (j * A + c) % A = c := by
  rw [mul_comm, Nat.mul_add_mod, Nat.mod_eq_of_lt hc]

theorem rowMajor_inj (A j1 j2 c1 c2 : ℕ) (h1 : c1 < A) (h2 : c2 < A)
    (h : j1 * A + c1 = j2 * A + c2) : j1 = j2 ∧ c1 = c2 :=
  ⟨by rw [← rowMajor_div A j1 c1 h1, h, rowMajor_div A j2 c2 h2],
   by rw [← rowMajor_mod A j1 c1 h1, h, rowMajor_mod A j2 c2 h2]⟩

/-- Entry formula for the scalar gather: row `j`, column `ant` of the
gather buffer holds the per-layout source sample. -/
theorem scalarGather_entry (usePartialTrans : Bool)
    (bsAntNum kTransposeBlockSize ofdmDataNum sc0 : ℕ) (data : ℕ → α)
    (buf : ℕ → α) (j ant : ℕ) (hj : j < kSCsPerCacheline)
    (ha : ant < bsAntNum) :
    writeBuf (scalarGatherWrites usePartialTrans bsAntNum
      kTransposeBlockSize ofdmDataNum sc0 data) buf (j * bsAntNum + ant) =
    scalarGatherVal usePartialTrans bsAntNum kTransposeBlockSize
      ofdmDataNum sc0 data j ant := by
  have hdiv : (j * bsAntNum + ant) / bsAntNum = j := rowMajor_div _ _ _ ha
  have hmod : (j * bsAntNum + ant) % bsAntNum = ant := rowMajor_mod _ _ _ ha
  have hlt : j * bsAntNum + ant < kSCsPerCacheline * bsAntNum :=
    calc j * bsAntNum + ant < j * bsAntNum + bsAntNum := by omega
    _ = (j + 1) * bsAntNum := by ring
    _ ≤ kSCsPerCacheline * bsAntNum := Nat.mul_le_mul_right _ hj
  have hmem : (j * bsAntNum + ant,
      scalarGatherVal usePartialTrans bsAntNum kTransposeBlockSize
        ofdmDataNum sc0 data j ant) ∈
      scalarGatherWrites usePartialTrans bsAntNum kTransposeBlockSize
        ofdmDataNum sc0 data := by
    refine List.mem_map.2 ⟨j * bsAntNum + ant, List.mem_range.2 hlt, ?_⟩
    rw [hdiv, hmod]
  refine writeBuf_of_mem _ _ _ _ ?_ hmem
  rw [scalarGatherWrites_map_fst]
  exact List.nodup_range _

theorem simdGatherPos_inj (bsAntNum : ℕ) (h4 : bsAntNum % 4 = 0)
    {n m : ℕ} (hn : n < bsAntNum / 4 * 32) (hm : m < bsAntNum / 4 * 32)
    (heq : simdGatherPos bsAntNum (n / 32) (n % 32 / 4) (n % 4) =
      simdGatherPos bsAntNum (m / 32) (m % 32 / 4) (m % 4)) : n = m := by
  have hb : bsAntNum / 4 * 4 = bsAntNum := Nat.div_mul_cancel
    (Nat.dvd_of_mod_eq_zero h4)
  have hn4 : n / 32 < bsAntNum / 4 := by
    by_contra hc
    push_neg at hc
    have := Nat.div_mul_le_self n 32
    omega
  have hm4 : m / 32 < bsAntNum / 4 := by
    by_contra hc
    push_neg at hc
    have := Nat.div_mul_le_self m 32
    omega
  have hcoln : 4 * (n / 32) + n % 4 < bsAntNum := by omega
  have hcolm : 4 * (m / 32) + m % 4 < bsAntNum := by omega
  unfold simdGatherPos at heq
  have heq2 : n % 32 / 4 * bsAntNum + (4 * (n / 32) + n % 4) =
      m % 32 / 4 * bsAntNum + (4 * (m / 32) + m % 4) := by
    rw [← add_assoc, ← add_assoc]; exact heq
  have hrow := rowMajor_inj bsAntNum _ _ _ _ hcoln hcolm heq2
  omega

theorem simdGatherWrites_map_fst_nodup (bsAntNum kTransposeBlockSize
    sc0 : ℕ) (data : ℕ → α) (h4 : bsAntNum % 4 = 0) :
    ((simdGatherWrites bsAntNum kTransposeBlockSize sc0 data).map
      Prod.fst).Nodup := by
  have : (simdGatherWrites bsAntNum kTransposeBlockSize sc0
      data).map Prod.fst =
      (List.range (bsAntNum / 4 * 32)).map fun n =>
        simdGatherPos bsAntNum (n / 32) (n % 32 / 4) (n % 4) := by
    simp [simdGatherWrites, List.map_map, Function.comp_def]
  rw [this]
  refine List.Nodup.map_on ?_ (List.nodup_range _)
  intro x hx y hy hxy
  exact simdGatherPos_inj bsAntNum h4 (List.mem_range.1 hx)
    (List.mem_range.1 hy) hxy

/-- Entry formula for the SIMD gather: row `j`, column `ant` of the
gather buffer holds the sample from the partial-transpose layout
addressed relative to the cache-line base `sc0`. -/
theorem simdGather_entry (bsAntNum kTransposeBlockSize sc0 : ℕ)
    (data : ℕ → α) (buf : ℕ → α) (j ant : ℕ) (hj : j < kSCsPerCacheline)
    (ha : ant < bsAntNum) (h4 : bsAntNum % 4 = 0) :
    writeBuf (simdGatherWrites bsAntNum kTransposeBlockSize sc0 data)
      buf (j * bsAntNum + ant) =
    data (partialTransposeBlockBase bsAntNum kTransposeBlockSize sc0 +
      ant * kTransposeBlockSize + (sc0 % kTransposeBlockSize + j)) := by
  have hsc : kSCsPerCacheline = 8 := rfl
  set b := ant / 4 with hb
  set k := ant % 4 with hk
  have hk4 : k < 4 := Nat.mod_lt _ (by norm_num)
  have hant : 4 * b + k = ant := by
    rw [hb, hk]; omega
  have hblt : b < bsAntNum / 4 := by
    rw [hb]
    have : bsAntNum / 4 * 4 = bsAntNum := Nat.div_mul_cancel
      (Nat.dvd_of_mod_eq_zero h4)
    omega
  set n := b * 32 + j * 4 + k with hn
  have hnb : n / 32 = b := by rw [hn]; omega
  have hnj : n % 32 / 4 = j := by rw [hn, hsc] at *; omega
  have hnk : n % 4 = k := by rw [hn]; omega
  have hnlt : n < bsAntNum / 4 * 32 := by rw [hn, hsc] at *; omega
  have hmem : (j * bsAntNum + ant,
      simdGatherVal bsAntNum kTransposeBlockSize sc0 data b j k) ∈
      simdGatherWrites bsAntNum kTransposeBlockSize sc0 data := by
    refine List.mem_map.2 ⟨n, List.mem_range.2 hnlt, ?_⟩
    rw [hnb, hnj, hnk]
    simp only [simdGatherPos, Prod.mk.injEq]
    exact ⟨by rw [add_assoc, hant], trivial⟩
  rw [writeBuf_of_mem _ _ _ _
    (simdGatherWrites_map_fst_nodup _ _ _ _ h4) hmem]
  unfold simdGatherVal
  congr 1
  have : ant * kTransposeBlockSize =
      b * (4 * kTransposeBlockSize) + k * kTransposeBlockSize := by
    rw [← hant]; ring
  rw [this]; ring

/-- Alignment fact behind the code comment at `dodemul.cc` lines
110-112: when the cache-line width divides both the transpose block
size and the cache-line base subcarrier, the whole cache line lies in
one transpose block. -/
theorem cacheline_align (T sc0 j : ℕ) (hT : 0 < T) (h8T : 8 ∣ T)
    (h8s : 8 ∣ sc0) (hj : j < 8) :
    (sc0 + j) / T = sc0 / T ∧ (sc0 + j) % T = sc0 % T + j := by
  have hdm := Nat.div_add_mod sc0 T
  have hrT : sc0 % T < T := Nat.mod_lt _ hT
  have h8r : 8 ∣ sc0 % T := by
    have : 8 ∣ T * (sc0 / T) := Dvd.dvd.mul_right h8T _
    exact (Nat.dvd_add_right this).1 (by rw [hdm]; exact h8s)
  have hrj : sc0 % T + j < T := by
    have h8d : 8 ∣ T - sc0 % T := Nat.dvd_sub' h8T h8r
    have := Nat.le_of_dvd (by omega) h8d
    omega
  have hsplit : sc0 + j = T * (sc0 / T) + (sc0 % T + j) := by omega
  constructor
  · rw [hsplit, Nat.mul_add_div hT, Nat.div_eq_of_lt hrj, add_zero]
  · rw [hsplit, Nat.mul_add_mod, Nat.mod_eq_of_lt hrj]

/-- Claim C6: for every subcarrier `sc0 + j` in the current cache-line
group and every antenna `ant`, the gathered buffer entry at row `j`,
column `ant` equals the source sample at offset
`ant * ofdmDataNum + s` in the contiguous-per-antenna layout, and at
offset `block_base + ant * T + (s mod T)` (with `block_base` the start
of `s`'s transpose block) in the partial-transpose layout. -/
theorem scalar_gather_layout_c6 (bsAntNum kTransposeBlockSize ofdmDataNum
    sc0 : ℕ) (data : ℕ → α) (buf : ℕ → α) (j ant : ℕ)
    (hT : 0 < kTransposeBlockSize) (h8T : 8 ∣ kTransposeBlockSize)
    (h8s : 8 ∣ sc0) (hj : j < kSCsPerCacheline) (ha : ant < bsAntNum) :
    writeBuf (scalarGatherWrites true bsAntNum kTransposeBlockSize
        ofdmDataNum sc0 data) buf (j * bsAntNum + ant) =
      data (((sc0 + j) / kTransposeBlockSize) *
        (kTransposeBlockSize * bsAntNum) + ant * kTransposeBlockSize +
        (sc0 + j) % kTransposeBlockSize) ∧
    writeBuf (scalarGatherWrites false bsAntNum kTransposeBlockSize
        ofdmDataNum sc0 data) buf (j * bsAntNum + ant) =
      data (ant * ofdmDataNum + (sc0 + j)) := by
  have hj8 : j < 8 := hj
  obtain ⟨hdiv, -⟩ := cacheline_align kTransposeBlockSize sc0 j hT h8T h8s hj8
  constructor
  · rw [scalarGather_entry true _ _ _ _ _ _ _ _ hj ha]
    simp only [scalarGatherVal, partialTransposeBlockBase, ite_true]
    rw [hdiv]
  · rw [scalarGather_entry false _ _ _ _ _ _ _ _ hj ha]
    simp only [scalarGatherVal, if_neg Bool.false_ne_true]
    rw [← add_assoc]

/-- Claim C5: for every base-station antenna count, the gather stage
(SIMD path when the count is divisible by the vector width and the
partial-transpose layout is active, scalar loop otherwise) produces
the same gathered buffer entries as the reference per-layout gather. -/
theorem gather_stage_matches_reference_c5 (usePartialTrans : Bool)
    (bsAntNum kTransposeBlockSize ofdmDataNum sc0 : ℕ) (data : ℕ → α)
    (buf : ℕ → α) (j ant : ℕ) (hT : 0 < kTransposeBlockSize)
    (h8T : 8 ∣ kTransposeBlockSize) (h8s : 8 ∣ sc0)
    (hj : j < kSCsPerCacheline) (ha : ant < bsAntNum) :
    gatherStage kUseSIMDGather usePartialTrans bsAntNum
      kTransposeBlockSize ofdmDataNum sc0 data buf (j * bsAntNum + ant) =
    refGatherVal usePartialTrans bsAntNum kTransposeBlockSize ofdmDataNum
      data (sc0 + j) ant := by
  have hj8 : j < 8 := hj
  obtain ⟨hdiv, hmod⟩ :=
    cacheline_align kTransposeBlockSize sc0 j hT h8T h8s hj8
  unfold gatherStage
  by_cases hc : kUseSIMDGather = true ∧ bsAntNum % 4 = 0 ∧
      usePartialTrans = true
  · rw [if_pos hc]
    rw [simdGather_entry _ _ _ _ _ _ _ hj ha hc.2.1]
    simp only [refGatherVal, partialTransposeBlockBase, hc.2.2, ite_true]
    rw [hdiv, hmod]
  · rw [if_neg hc]
    rw [scalarGather_entry _ _ _ _ _ _ _ _ _ hj ha]
    cases usePartialTrans with
    | true =>
      simp only [scalarGatherVal, refGatherVal, partialTransposeBlockBase,
        ite_true]
      rw [hdiv]
    | false =>
      simp only [scalarGatherVal, refGatherVal,
        if_neg Bool.false_ne_true]
      rw [← add_assoc]

/-- Witness for claim C5 at a concrete configuration: 4 antennas,
transpose blocks of 8, partial-transpose layout, cache line at
subcarrier 8, row 3, antenna 2. -/
theorem gather_stage_matches_reference_c5_witness :
    0 < 8 ∧ (8 : ℕ) ∣ 8 ∧ (8 : ℕ) ∣ 8 ∧ 3 < kSCsPerCacheline ∧ 2 < 4 ∧
    gatherStage kUseSIMDGather true 4 8 64 8 (fun n => (n : ℤ))
      (fun _ => (-1 : ℤ)) (3 * 4 + 2) =
    refGatherVal true 4 8 64 (fun n => (n : ℤ)) (8 + 3) 2 :=
  ⟨by decide, by decide, by decide, by decide, by decide,
   gather_stage_matches_reference_c5 true 4 8 64 8 _ _ 3 2
     (by decide) (by decide) (by decide) (by decide) (by decide)⟩

/-- Witness for claim C6 at a concrete configuration: 3 antennas,
transpose blocks of 8, cache line at subcarrier 16, row 5, antenna 2. -/
theorem scalar_gather_layout_c6_witness :
    0 < 8 ∧ (8 : ℕ) ∣ 8 ∧ (8 : ℕ) ∣ 16 ∧ 5 < kSCsPerCacheline ∧ 2 < 3 ∧
    (writeBuf (scalarGatherWrites true 3 8 64 16 (fun n => (n : ℤ)))
        (fun _ => (-1 : ℤ)) (5 * 3 + 2) =
      ((16 + 5) / 8 * (8 * 3) + 2 * 8 + (16 + 5) % 8 : ℕ) ∧
     writeBuf (scalarGatherWrites false 3 8 64 16 (fun n => (n : ℤ)))
        (fun _ => (-1 : ℤ)) (5 * 3 + 2) = (2 * 64 + (16 + 5) : ℕ)) :=
  ⟨by decide, by decide, by decide, by decide, by decide,
   scalar_gather_layout_c6 3 8 64 16 (fun n => (n : ℤ)) _ 5 2
     (by decide) (by decide) (by decide) (by decide) (by decide)⟩

/-- Claim C9: if the cache-line width divides the block size and the
OFDM data-subcarrier count, and the base subcarrier id is a multiple
of the block size, then `max_sc_ite` is a multiple of the cache-line
width, so the alignment assertion at `dodemul.cc` line 102 holds. -/
theorem max_sc_ite_aligned_c9 (cacheline demulBlockSize ofdmDataNum
    baseScId : ℕ) (hB : cacheline ∣ demulBlockSize)
    (hO : cacheline ∣ ofdmDataNum) (hbase : demulBlockSize ∣ baseScId) :
    maxScIte demulBlockSize ofdmDataNum baseScId % cacheline = 0 := by
  have hb : cacheline ∣ baseScId := dvd_trans hB hbase
  have hsub : cacheline ∣ ofdmDataNum - baseScId := Nat.dvd_sub' hO hb
  have : cacheline ∣ maxScIte demulBlockSize ofdmDataNum baseScId := by
    unfold maxScIte
    rcases Nat.le_total demulBlockSize (ofdmDataNum - baseScId) with h | h
    · rwa [min_eq_left h]
    · rwa [min_eq_right h]
  obtain ⟨k, hk⟩ := this
  rw [hk]
  exact Nat.mul_mod_right _ _

/-- Witness for claim C9: cache-line width 8, block size 32, 64 data
subcarriers, base subcarrier 32. -/
theorem max_sc_ite_aligned_c9_witness :
    (8 : ℕ) ∣ 32 ∧ (8 : ℕ) ∣ 64 ∧ (32 : ℕ) ∣ 32 ∧
    maxScIte 32 64 32 % 8 = 0 :=
  ⟨by decide, by decide, by decide,
   max_sc_ite_aligned_c9 8 32 64 32 (by decide) (by decide) (by decide)⟩

/-! ### Equalization Kernel (`dodemul.cc` lines 196-212,
`dodemul.cpp` lines 96-132)

`mat_equaled = mat_ul_zf * mat_data`: the UE-count × antenna-count
channel-inversion matrix times the gathered antenna-count complex
vector. -/

/-- Direct-loop equalization (`mat_equaled = mat_ul_zf * mat_data`,
`dodemul.cc` line 211; `mat_equaled = mat_precoder * mat_data`,
`dodemul.cpp` line 129): entry `u` is the inner product of row `u` of
the channel-inversion matrix with the antenna vector.  Stated over any
commutative ring of scalars; the claim theorems instantiate it at `ℂ`,
the exact embedding of the single-precision complex samples. -/
def equalize {K : Type} [CommRing K] (ueNum bsAntNum : ℕ)
    (ulZf : Fin ueNum → Fin bsAntNum → K)
    (dataVec : Fin bsAntNum → K) : Fin ueNum → K :=
  fun u => ∑ a, ulZf u a * dataVec a

/-- The MKL JIT cgemm kernel created in the `DoDemul` constructor
(`dodemul.cc` lines 47-63): `C = alpha * A * B + beta * C` on a
UE-count × antenna-count by antenna-count × 1 problem, with
`alpha = {1, 0}` and `beta = {0, 0}`. -/
def mklJitCgemm {K : Type} [CommRing K] (alpha beta : K)
    (ueNum bsAntNum : ℕ)
    (ulZf : Fin ueNum → Fin bsAntNum → K) (dataVec : Fin bsAntNum → K)
    (cPrev : Fin ueNum → K) : Fin ueNum → K :=
  fun u => alpha * (∑ a, ulZf u a * dataVec a) + beta * cPrev u

/-- Claim C2: the equalized output vector is the channel-inversion
matrix applied to the gathered antenna vector, and the JIT-compiled
multiply (with its configured `alpha = 1`, `beta = 0`) agrees with the
direct-loop multiply exactly, hence within 1e-5 relative error. -/
theorem equalize_matches_matvec_c2 (ueNum bsAntNum : ℕ)
    (ulZf : Fin ueNum → Fin bsAntNum → ℂ) (dataVec : Fin bsAntNum → ℂ)
    (cPrev : Fin ueNum → ℂ) :
    equalize ueNum bsAntNum ulZf dataVec =
      (Matrix.of ulZf).mulVec dataVec ∧
    mklJitCgemm 1 0 ueNum bsAntNum ulZf dataVec cPrev =
      equalize ueNum bsAntNum ulZf dataVec ∧
    ∀ u, ‖mklJitCgemm 1 0 ueNum bsAntNum ulZf dataVec cPrev u -
        equalize ueNum bsAntNum ulZf dataVec u‖ ≤
      (1e-5 : ℝ) * ‖equalize ueNum bsAntNum ulZf dataVec u‖ := by
  have hjit : mklJitCgemm 1 0 ueNum bsAntNum ulZf dataVec cPrev =
      equalize ueNum bsAntNum ulZf dataVec := by
    funext u
    simp [mklJitCgemm, equalize]
  refine ⟨?_, hjit, ?_⟩
  · funext u
    simp [equalize, Matrix.mulVec, Matrix.dotProduct, Matrix.of_apply]
  · intro u
    rw [hjit, sub_self, norm_zero]
    positivity

/-! ### Phase Tracker: pilot accumulation and the frame carry-barrier
(`dodemul.cc` lines 214-232)

While `symbol_idx_ul < ClientUlPilotSymbols()`, each subcarrier task
adds a unit-magnitude phase contribution into the accumulator of slot
`frame_id % kFrameWnd`; at the very first pilot subcarrier of a frame
(`symbol_idx_ul == 0 && cur_sc_id == 0`) the accumulator block of slot
`(frame_id - 1) % kFrameWnd` is zero-filled first.  The accumulator
block of one slot (all UEs × pilot symbols) is embedded as a value of
an additive commutative monoid `M`; `ue_spec_pilot_buffer_` is a
function from slot index to `M`.  Frames are processed to completion
in frame order, per the scheduler invariant of spec §3/§5. -/

/-- `(frame_id - 1) % kFrameWnd` in `size_t` arithmetic
(`dodemul.cc` line 219): subtraction wraps modulo `2 ^ 64`. -/
def resetSlot (kFrameWnd f : ℕ) : ℕ :=
  ((f + (2 ^ 64 - 1)) % 2 ^ 64) % kFrameWnd

/-- One frame's pilot-symbol processing: first the reset of slot
`resetSlot kFrameWnd f` (performed at `symbol_idx_ul == 0`,
`cur_sc_id == 0`, before that subcarrier's contribution is added),
then every pilot contribution of the frame added in task order into
slot `f % kFrameWnd` (`mat_phase_shift += shift_sc`). -/
def processPilotFrame {M : Type} [AddCommMonoid M] (kFrameWnd f : ℕ)
    (contribs : List M) (st : ℕ → M) : ℕ → M :=
  contribs.foldl
    (fun s c =>
      Function.update s (f % kFrameWnd) (s (f % kFrameWnd) + c))
    (Function.update st (resetSlot kFrameWnd f) 0)

/-- Frames `0, 1, …, n` processed to completion in order. -/
def runPilotFrames {M : Type} [AddCommMonoid M] (kFrameWnd : ℕ)
    (contribs : ℕ → List M) (st : ℕ → M) : ℕ → ℕ → M
  | 0 => processPilotFrame kFrameWnd 0 (contribs 0) st
  | n + 1 =>
      processPilotFrame kFrameWnd (n + 1) (contribs (n + 1))
        (runPilotFrames kFrameWnd contribs st n)

theorem runPilotFrames_succ {M : Type} [AddCommMonoid M] (kFrameWnd : ℕ)
    (contribs : ℕ → List M) (st : ℕ → M) (n : ℕ) :
    runPilotFrames kFrameWnd contribs st (n + 1) =
      processPilotFrame kFrameWnd (n + 1) (contribs (n + 1))
        (runPilotFrames kFrameWnd contribs st n) := rfl

theorem foldl_update_add {M : Type} [AddCommMonoid M] (t : ℕ)
    (cs : List M) (st : ℕ → M) :
    cs.foldl (fun s c => Function.update s t (s t + c)) st =
      Function.update st t (st t + cs.sum) := by
  induction cs generalizing st with
  | nil => rw [List.foldl_nil, List.sum_nil, add_zero,
      Function.update_eq_self]
  | cons c rest ih =>
    rw [List.foldl_cons, ih, Function.update_same, Function.update_idem,
      List.sum_cons, add_assoc]

/-- Pointwise evaluation of one frame's pilot processing. -/
theorem processPilotFrame_apply {M : Type} [AddCommMonoid M]
    (kFrameWnd f : ℕ) (contribs : List M) (st : ℕ → M) (x : ℕ) :
    processPilotFrame kFrameWnd f contribs st x =
      if x = f % kFrameWnd then
        (if resetSlot kFrameWnd f = f % kFrameWnd then 0 else st x) +
          contribs.sum
      else if x = resetSlot kFrameWnd f then 0 else st x := by
  unfold processPilotFrame
  rw [foldl_update_add]
  rcases eq_or_ne x (f % kFrameWnd) with hx | hx
  · rw [hx, if_pos rfl, Function.update_same]
    rcases eq_or_ne (resetSlot kFrameWnd f) (f % kFrameWnd) with hr | hr
    · rw [if_pos hr, hr, Function.update_same]
    · rw [if_neg hr, Function.update_noteq (Ne.symm hr)]
  · rw [if_neg hx, Function.update_noteq hx]
    rcases eq_or_ne x (resetSlot kFrameWnd f) with hr | hr
    · rw [if_pos hr, hr, Function.update_same]
    · rw [if_neg hr, Function.update_noteq hr]

theorem resetSlot_eq (kFrameWnd f : ℕ) (h1 : 1 ≤ f) (h2 : f < 2 ^ 64) :
    resetSlot kFrameWnd f = (f - 1) % kFrameWnd := by
  have h : (f + (2 ^ 64 - 1)) % 2 ^ 64 = f - 1 := by omega
  unfold resetSlot
  rw [h]

/-- Two frame indices strictly less than a window apart occupy
different slots. -/
theorem mod_ne_of_between (kFrameWnd f N : ℕ) (hle : f ≤ N)
    (h0 : 0 < N - f) (hW : N - f < kFrameWnd) :
    f % kFrameWnd ≠ N % kFrameWnd := by
  intro h
  have hmod : f ≡ N [MOD kFrameWnd] := h
  rw [Nat.modEq_iff_dvd' hle] at hmod
  have := Nat.le_of_dvd h0 hmod
  omega

/-- Between the reset of a slot (performed by the first frame of the
next window period) and the slot's next user, the slot stays zero. -/
theorem slot_zero_between {M : Type} [AddCommMonoid M] (kFrameWnd N : ℕ)
    (contribs : ℕ → List M) (st : ℕ → M) (hW : 2 ≤ kFrameWnd)
    (hWN : kFrameWnd ≤ N) (hN : N < 2 ^ 64) :
    ∀ d, d ≤ kFrameWnd - 2 →
      runPilotFrames kFrameWnd contribs st (N + 1 - kFrameWnd + d)
        (N % kFrameWnd) = 0 := by
  intro d
  induction d with
  | zero =>
    intro _
    have hf1 : 1 ≤ N + 1 - kFrameWnd := by omega
    obtain ⟨m, hm⟩ : ∃ m, N + 1 - kFrameWnd = m + 1 :=
      ⟨N - kFrameWnd, by omega⟩
    rw [add_zero, hm, runPilotFrames_succ, processPilotFrame_apply]
    have hreset : resetSlot kFrameWnd (m + 1) = N % kFrameWnd := by
      rw [resetSlot_eq _ _ (by omega) (by omega)]
      have hmf : m + 1 - 1 = N - kFrameWnd := by omega
      rw [hmf]
      conv_rhs => rw [show N = (N - kFrameWnd) + kFrameWnd by omega]
      rw [Nat.add_mod_right]
    have hacc : (m + 1) % kFrameWnd ≠ N % kFrameWnd := by
      apply mod_ne_of_between _ _ _ (by omega) (by omega) (by omega)
    rw [if_neg (Ne.symm hacc), if_pos hreset.symm]
  | succ d ih =>
    intro hd
    have hzero := ih (by omega)
    have hf1 : 1 ≤ N + 1 - kFrameWnd + (d + 1) := by omega
    obtain ⟨m, hm1, hm2⟩ : ∃ m, N + 1 - kFrameWnd + (d + 1) = m + 1 ∧
        m = N + 1 - kFrameWnd + d :=
      ⟨N + 1 - kFrameWnd + d, by omega, rfl⟩
    rw [hm1, runPilotFrames_succ, processPilotFrame_apply]
    have hacc : (m + 1) % kFrameWnd ≠ N % kFrameWnd := by
      apply mod_ne_of_between _ _ _ (by omega) (by omega) (by omega)
    have hreset : resetSlot kFrameWnd (m + 1) ≠ N % kFrameWnd := by
      rw [resetSlot_eq _ _ (by omega) (by omega)]
      have hm11 : m + 1 - 1 = m := by omega
      rw [hm11]
      apply mod_ne_of_between _ _ _ (by omega) (by omega) (by omega)
    rw [if_neg (Ne.symm hacc), if_neg (Ne.symm hreset), hm2]
    exact hzero

/-- Claim C1: for a frame `N` whose ring slot was previously used by an
earlier frame (`kFrameWnd ≤ N`), after frames `0, …, N` have each
performed their reset-plus-accumulation in order, the pilot-phase
accumulator of slot `N % kFrameWnd` — the block read during frame
`N`'s data-symbol correction — is exactly the sum of frame `N`'s own
contributions, with zero trace of any earlier frame. -/
theorem pilot_accumulator_isolation_c1 {M : Type} [AddCommMonoid M]
    (kFrameWnd N : ℕ) (contribs : ℕ → List M) (st : ℕ → M)
    (hW : 1 ≤ kFrameWnd) (hWN : kFrameWnd ≤ N) (hN : N < 2 ^ 64) :
    runPilotFrames kFrameWnd contribs st N (N % kFrameWnd) =
      (contribs N).sum := by
  obtain ⟨m, hm⟩ : ∃ m, N = m + 1 := ⟨N - 1, by omega⟩
  subst hm
  rw [runPilotFrames_succ, processPilotFrame_apply, if_pos rfl]
  rcases eq_or_lt_of_le hW with hW1 | hW2
  · have hr : resetSlot kFrameWnd (m + 1) = (m + 1) % kFrameWnd := by
      rw [← hW1]
      simp [resetSlot, Nat.mod_one]
    rw [if_pos hr, zero_add]
  · have hr : resetSlot kFrameWnd (m + 1) ≠ (m + 1) % kFrameWnd := by
      rw [resetSlot_eq _ _ (by omega) (by omega)]
      have hm1 : m + 1 - 1 = m := by omega
      rw [hm1]
      apply mod_ne_of_between _ _ _ (by omega) (by omega) (by omega)
    rw [if_neg hr]
    have hprev : runPilotFrames kFrameWnd contribs st m
        ((m + 1) % kFrameWnd) = 0 := by
      have hz := slot_zero_between kFrameWnd (m + 1) contribs st
        (by omega) hWN hN (kFrameWnd - 2) (by omega)
      rwa [show m + 1 + 1 - kFrameWnd + (kFrameWnd - 2) = m by omega]
        at hz
    rw [hprev, zero_add]

/-- Witness for claim C1: window of 2 slots, frames 0-3, nonzero
initial garbage in every slot; after frame 3 the slot `3 % 2 = 1`
holds exactly frame 3's contributions `4 + 6 = 10`. -/
theorem pilot_accumulator_isolation_c1_witness :
    1 ≤ 2 ∧ 2 ≤ 3 ∧ 3 < 2 ^ 64 ∧
    runPilotFrames 2 (fun f => [(f : ℤ) + 1, 2 * f]) (fun _ => 7) 3
      (3 % 2) = ((fun f => [(f : ℤ) + 1, 2 * f]) 3).sum :=
  ⟨by decide, by decide, by norm_num,
   pilot_accumulator_isolation_c1 2 3 (fun f => [(f : ℤ) + 1, 2 * f])
     (fun _ => 7) (by decide) (by decide) (by norm_num)⟩

/-! ### Phase Tracker: data-symbol correction (`dodemul.cc` lines
234-253)

Per UE: `theta_mat = arg(pilot_corr_mat)` over the `P` pilot
accumulators, `theta_inc` = sum of successive differences divided by
`max(1, P-1)`, `cur_theta = theta_mat.col(0) + symbol_idx_ul *
theta_inc`, and the equalized value is multiplied elementwise by the
complex number with real part `cos(-cur_theta)` and imaginary part
`sin(-cur_theta)`.  `acc s` is the accumulator of this UE for pilot
symbol index `s`. -/

/-- The `theta_inc` accumulation loop (`dodemul.cc` lines 241-245):
`for (s = 1; s < P; s++) theta_inc += theta_mat.col(s) -
theta_mat.col(s-1)`. -/
noncomputable def thetaIncSum (clientUlPilotSymbols : ℕ)
    (acc : ℕ → ℂ) : ℝ :=
  (List.range (clientUlPilotSymbols - 1)).foldl
    (fun v s => v + (Complex.arg (acc (s + 1)) - Complex.arg (acc s))) 0

/-- `theta_inc /= (float)std::max(1, (int)(P - 1))`
(`dodemul.cc` lines 246-247). -/
noncomputable def thetaInc (clientUlPilotSymbols : ℕ) (acc : ℕ → ℂ) : ℝ :=
  thetaIncSum clientUlPilotSymbols acc /
    (max 1 (clientUlPilotSymbols - 1) : ℕ)

/-- `cur_theta = theta_mat.col(0) + (symbol_idx_ul * theta_inc)`
(`dodemul.cc` line 248). -/
noncomputable def curTheta (clientUlPilotSymbols : ℕ) (acc : ℕ → ℂ)
    (symbolIdxUl : ℕ) : ℝ :=
  Complex.arg (acc 0) +
    symbolIdxUl * thetaInc clientUlPilotSymbols acc

/-- `mat_phase_correct` (`dodemul.cc` lines 249-252): real part
`cos(-cur_theta)`, imaginary part `sin(-cur_theta)`. -/
noncomputable def matPhaseCorrect (clientUlPilotSymbols : ℕ)
    (acc : ℕ → ℂ) (symbolIdxUl : ℕ) : ℂ :=
  ⟨Real.cos (-(curTheta clientUlPilotSymbols acc symbolIdxUl)),
   Real.sin (-(curTheta clientUlPilotSymbols acc symbolIdxUl))⟩

/-- `mat_equaled %= mat_phase_correct` (`dodemul.cc` line 253),
elementwise per UE. -/
noncomputable def phaseCorrectedSymbol (clientUlPilotSymbols : ℕ)
    (acc : ℕ → ℂ) (symbolIdxUl : ℕ) (equaled : ℂ) : ℂ :=
  equaled * matPhaseCorrect clientUlPilotSymbols acc symbolIdxUl

/-- Average phase increment as the spec words it: the sum of
successive angle differences across the `P` pilot accumulators,
divided by `max(1, P-1)`. -/
noncomputable def avgIncrementSpec (clientUlPilotSymbols : ℕ)
    (acc : ℕ → ℂ) : ℝ :=
  ((List.range (clientUlPilotSymbols - 1)).map
    (fun s => Complex.arg (acc (s + 1)) - Complex.arg (acc s))).sum /
    (max 1 (clientUlPilotSymbols - 1) : ℕ)

theorem foldl_add_eq_sum (g : ℕ → ℝ) (l : List ℕ) (x : ℝ) :
    l.foldl (fun v s => v + g s) x = x + (l.map g).sum := by
  induction l generalizing x with
  | nil => simp
  | cons hd tl ih => rw [List.foldl_cons, ih, List.map_cons,
      List.sum_cons, add_assoc]

theorem thetaInc_eq_avgIncrementSpec (clientUlPilotSymbols : ℕ)
    (acc : ℕ → ℂ) :
    thetaInc clientUlPilotSymbols acc =
      avgIncrementSpec clientUlPilotSymbols acc := by
  unfold thetaInc thetaIncSum avgIncrementSpec
  rw [foldl_add_eq_sum, zero_add]

/-- The coded rotation factor is exactly `e^{-i·cur_theta}`. -/
theorem matPhaseCorrect_eq_exp (clientUlPilotSymbols : ℕ)
    (acc : ℕ → ℂ) (symbolIdxUl : ℕ) :
    matPhaseCorrect clientUlPilotSymbols acc symbolIdxUl =
      Complex.exp
        (-(curTheta clientUlPilotSymbols acc symbolIdxUl : ℂ) *
          Complex.I) := by
  have hcast : (-(curTheta clientUlPilotSymbols acc symbolIdxUl : ℂ)) =
      ((-(curTheta clientUlPilotSymbols acc symbolIdxUl) : ℝ) : ℂ) := by
    push_cast
    ring
  rw [hcast, Complex.exp_mul_I, ← Complex.ofReal_cos,
    ← Complex.ofReal_sin]
  unfold matPhaseCorrect
  rw [Complex.mk_eq_add_mul_I]

/-- Claim C4: for a data symbol (`symbol_idx_ul ≥ P`, `P > 0`), each
UE's equalized value is rotated by `e^{-i·theta(symbol_idx)}` with
`theta(symbol_idx) = arg(acc 0) + symbol_idx * avg_increment` and
`avg_increment` the mean of successive accumulator angle differences
(divided by `max(1, P-1)`). -/
theorem phase_correction_formula_c4 (clientUlPilotSymbols
    symbolIdxUl : ℕ) (acc : ℕ → ℂ) (equaled : ℂ)
    (hP : 0 < clientUlPilotSymbols)
    (hsym : clientUlPilotSymbols ≤ symbolIdxUl) :
    phaseCorrectedSymbol clientUlPilotSymbols acc symbolIdxUl equaled =
      equaled * Complex.exp
        (-((Complex.arg (acc 0) + symbolIdxUl *
            avgIncrementSpec clientUlPilotSymbols acc : ℝ) : ℂ) *
          Complex.I) := by
  unfold phaseCorrectedSymbol
  rw [matPhaseCorrect_eq_exp]
  congr 2
  unfold curTheta
  rw [thetaInc_eq_avgIncrementSpec]

/-- Witness for claim C4 at `P = 2`, `symbol_idx_ul = 3`, all-ones
accumulators, equalized value `i`. -/
theorem phase_correction_formula_c4_witness :
    0 < 2 ∧ 2 ≤ 3 ∧
    phaseCorrectedSymbol 2 (fun _ => (1 : ℂ)) 3 Complex.I =
      Complex.I * Complex.exp
        (-((Complex.arg ((fun _ => (1 : ℂ)) 0) + (3 : ℕ) *
            avgIncrementSpec 2 (fun _ => (1 : ℂ)) : ℝ) : ℂ) *
          Complex.I) :=
  ⟨by decide, by decide,
   phase_correction_formula_c4 2 3 (fun _ => (1 : ℂ)) Complex.I
     (by decide) (by decide)⟩

/-- Counterexample to claim C7 as stated: with `P = 1` the average
increment is zero, yet for accumulator value `-1` (phase angle `π`)
the correction rotates by `e^{-iπ}`, so the corrected symbol `-1`
differs from the uncorrected symbol `1`: a zero average increment
alone does not make the correction a rotation by angle 0. -/
theorem phase_correction_not_noop_c7_counterexample :
    thetaInc 1 (fun _ => (-1 : ℂ)) = 0 ∧
    phaseCorrectedSymbol 1 (fun _ => (-1 : ℂ)) 5 1 = -1 ∧
    ((-1 : ℂ) ≠ 1) := by
  have h0 : thetaInc 1 (fun _ => (-1 : ℂ)) = 0 := by
    simp [thetaInc, thetaIncSum]
  refine ⟨h0, ?_, by norm_num⟩
  have hθ : curTheta 1 (fun _ => (-1 : ℂ)) 5 = Real.pi := by
    simp [curTheta, h0, Complex.arg_neg_one]
  unfold phaseCorrectedSymbol matPhaseCorrect
  rw [hθ, one_mul, Complex.mk_eq_add_mul_I]
  simp [Real.cos_neg, Real.sin_neg, Real.cos_pi, Real.sin_pi]

/-- Claim C7 (amended): if the average phase increment is zero — in
particular for `P = 1` — and the first pilot accumulator's phase angle
is also zero (as with zero simulated channel drift), then the
correction is a rotation by angle 0 and the corrected symbol equals
the uncorrected symbol exactly. -/
theorem phase_correction_noop_c7 (clientUlPilotSymbols
    symbolIdxUl : ℕ) (acc : ℕ → ℂ) (equaled : ℂ)
    (hinc : thetaInc clientUlPilotSymbols acc = 0)
    (harg : Complex.arg (acc 0) = 0) :
    phaseCorrectedSymbol clientUlPilotSymbols acc symbolIdxUl equaled =
      equaled := by
  have hθ : curTheta clientUlPilotSymbols acc symbolIdxUl = 0 := by
    simp [curTheta, hinc, harg]
  unfold phaseCorrectedSymbol matPhaseCorrect
  rw [hθ, neg_zero, Real.cos_zero, Real.sin_zero,
    Complex.mk_eq_add_mul_I]
  simp

/-- Witness for the amended claim C7: `P = 1`, all-ones accumulators
(zero increment and zero first angle), arbitrary data symbol 5. -/
theorem phase_correction_noop_c7_witness :
    thetaInc 1 (fun _ => (1 : ℂ)) = 0 ∧
    Complex.arg ((fun _ => (1 : ℂ)) 0) = 0 ∧
    phaseCorrectedSymbol 1 (fun _ => (1 : ℂ)) 5 Complex.I =
      Complex.I := by
  have h0 : thetaInc 1 (fun _ => (1 : ℂ)) = 0 := by
    simp [thetaInc, thetaIncSum]
  have h1 : Complex.arg ((fun _ => (1 : ℂ)) 0) = 0 := Complex.arg_one
  exact ⟨h0, h1,
    phase_correction_noop_c7 1 5 (fun _ => (1 : ℂ)) Complex.I h0 h1⟩

/-! ### Soft Demodulator dispatch and completion (`dodemul.cc` lines
269-319; the same switch shape appears in `ue_worker.cc` lines
405-441)

The demodulation kernels themselves (`DemodQpskSoftSse`,
`Demod16qamSoftAvx2`, `Demod64qamSoftAvx2`) live outside `src/` and
are taken as parameters: each maps the per-UE transposed equalized
vector to the list of LLR bytes it writes. -/

/-- Modulation-order constants compared against `cfg_->ModOrderBits()`
in the `switch`.  Modelled from the spec: the `CommsLib` enumeration
is declared outside `src/`; QPSK, 16-QAM and 64-QAM carry 2, 4 and 6
bits per subcarrier-symbol respectively (spec §4.5, §6). -/
def kQpsk : ℕ := 2

/-- 16-QAM modulation order in bits (see `kQpsk`). -/
def kQaM16 : ℕ := 4

/-- 64-QAM modulation order in bits (see `kQpsk`). -/
def kQaM64 : ℕ := 6

/-- Event types relevant to the Demul task (`EventType::kDemul`). -/
inductive EventType where
  | kDemul : EventType
  | kDecode : EventType
deriving DecidableEq

/-- The completion event value `EventData(EventType::kDemul, tag)`
returned by `DoDemul::Launch` (`dodemul.cc` line 319). -/
structure EventData where
  eventType : EventType
  tag : ℕ
deriving DecidableEq

/-- Sequential byte writes of a demodulation kernel starting at a byte
offset (`demod_ptr` walk). -/
def writeBytes {β : Type} : ℕ → List β → (ℕ → β) → (ℕ → β)
  | _, [], buf => buf
  | off, b :: rest, buf => writeBytes (off + 1) rest (Function.update buf off b)

/-- The modulation `switch` for one UE (`dodemul.cc` lines 294-307):
a supported order writes the kernel's bytes at offset
`ModOrderBits * base_sc_id` into that UE's LLR buffer; the `default`
arm only prints `"modulation type not supported!"` and writes
nothing. -/
def demodSwitch {α β : Type} (kq k16 k64 : (ℕ → α) → List β)
    (modOrderBits : ℕ) (input : ℕ → α) (baseScId : ℕ)
    (buf : ℕ → β) : ℕ → β :=
  if modOrderBits = kQpsk then
    writeBytes (modOrderBits * baseScId) (kq input) buf
  else if modOrderBits = kQaM16 then
    writeBytes (modOrderBits * baseScId) (k16 input) buf
  else if modOrderBits = kQaM64 then
    writeBytes (modOrderBits * baseScId) (k64 input) buf
  else buf

/-- The frame-window state visible to the tail of `Launch`: the
per-(frame, symbol) equalized export buffer, the pilot-phase
accumulators, and the per-UE LLR buffers, all already holding the
effects of the gather/equalization/phase stages. -/
structure LaunchState (α β : Type) where
  equalBuf : ℕ → α
  uePilotAcc : ℕ → α
  llr : ℕ → ℕ → β

/-- The tail of `DoDemul::Launch` (`dodemul.cc` lines 269-319): for
each UE, transpose its equalized vector (`inputs ue`) and dispatch on
the modulation order; finally return
`EventData(EventType::kDemul, tag)`. -/
def launchDemodStage {α β : Type} (kq k16 k64 : (ℕ → α) → List β)
    (modOrderBits ueNum baseScId : ℕ) (inputs : ℕ → ℕ → α)
    (st : LaunchState α β) (tag : ℕ) : LaunchState α β × EventData :=
  ({ st with
      llr := fun ue =>
        if ue < ueNum then
          demodSwitch kq k16 k64 modOrderBits (inputs ue) baseScId
            (st.llr ue)
        else st.llr ue },
   ⟨EventType.kDemul, tag⟩)

theorem demodSwitch_default {α β : Type} (kq k16 k64 : (ℕ → α) → List β)
    (modOrderBits : ℕ) (input : ℕ → α) (baseScId : ℕ) (buf : ℕ → β)
    (h2 : modOrderBits ≠ kQpsk) (h4 : modOrderBits ≠ kQaM16)
    (h6 : modOrderBits ≠ kQaM64) :
    demodSwitch kq k16 k64 modOrderBits input baseScId buf = buf := by
  unfold demodSwitch
  rw [if_neg h2, if_neg h4, if_neg h6]

/-- In the unsupported-modulation case the whole launch tail is the
identity on the frame-window state and still emits the normal
completion event. -/
theorem launchDemodStage_default {α β : Type}
    (kq k16 k64 : (ℕ → α) → List β) (modOrderBits ueNum baseScId : ℕ)
    (inputs : ℕ → ℕ → α) (st : LaunchState α β) (tag : ℕ)
    (h2 : modOrderBits ≠ kQpsk) (h4 : modOrderBits ≠ kQaM16)
    (h6 : modOrderBits ≠ kQaM64) :
    launchDemodStage kq k16 k64 modOrderBits ueNum baseScId inputs st
      tag = (st, ⟨EventType.kDemul, tag⟩) := by
  unfold launchDemodStage
  have hllr : (fun ue =>
      if ue < ueNum then
        demodSwitch kq k16 k64 modOrderBits (inputs ue) baseScId
          (st.llr ue)
      else st.llr ue) = st.llr := by
    funext ue
    rw [demodSwitch_default _ _ _ _ _ _ _ h2 h4 h6, ite_self]
  rw [hllr]

/-- Claim C10: when the configured modulation order matches no
supported kernel, `Launch` writes no LLR bytes for any UE, leaves the
equalized buffer and pilot-phase accumulators exactly as the earlier
stages produced them, and still returns the normal `kDemul` completion
event carrying the original task tag. -/
theorem unsupported_modulation_stale_c10 {α β : Type}
    (kq k16 k64 : (ℕ → α) → List β) (modOrderBits ueNum baseScId : ℕ)
    (inputs : ℕ → ℕ → α) (st : LaunchState α β) (tag : ℕ)
    (h2 : modOrderBits ≠ kQpsk) (h4 : modOrderBits ≠ kQaM16)
    (h6 : modOrderBits ≠ kQaM64) :
    (launchDemodStage kq k16 k64 modOrderBits ueNum baseScId inputs st
        tag).1.llr = st.llr ∧
    (launchDemodStage kq k16 k64 modOrderBits ueNum baseScId inputs st
        tag).1.equalBuf = st.equalBuf ∧
    (launchDemodStage kq k16 k64 modOrderBits ueNum baseScId inputs st
        tag).1.uePilotAcc = st.uePilotAcc ∧
    (launchDemodStage kq k16 k64 modOrderBits ueNum baseScId inputs st
        tag).2 = ⟨EventType.kDemul, tag⟩ := by
  rw [launchDemodStage_default kq k16 k64 modOrderBits ueNum baseScId
    inputs st tag h2 h4 h6]
  exact ⟨rfl, rfl, rfl, rfl⟩

/-- Witness for claim C10: modulation order 3, two UEs, concrete
pre-demodulation state. -/
theorem unsupported_modulation_stale_c10_witness :
    ((3 : ℕ) ≠ kQpsk ∧ (3 : ℕ) ≠ kQaM16 ∧ (3 : ℕ) ≠ kQaM64) ∧
    ((launchDemodStage (α := ℤ) (β := ℤ) (fun _ => [1, 1])
        (fun _ => [2, 2]) (fun _ => [3, 3]) 3 2 0 (fun _ _ => 5)
        ⟨fun _ => 9, fun _ => 8, fun _ _ => 7⟩ 42).1.llr =
      (fun _ _ => (7 : ℤ)) ∧
     (launchDemodStage (α := ℤ) (β := ℤ) (fun _ => [1, 1])
        (fun _ => [2, 2]) (fun _ => [3, 3]) 3 2 0 (fun _ _ => 5)
        ⟨fun _ => 9, fun _ => 8, fun _ _ => 7⟩ 42).1.equalBuf =
      (fun _ => (9 : ℤ)) ∧
     (launchDemodStage (α := ℤ) (β := ℤ) (fun _ => [1, 1])
        (fun _ => [2, 2]) (fun _ => [3, 3]) 3 2 0 (fun _ _ => 5)
        ⟨fun _ => 9, fun _ => 8, fun _ _ => 7⟩ 42).1.uePilotAcc =
      (fun _ => (8 : ℤ)) ∧
     (launchDemodStage (α := ℤ) (β := ℤ) (fun _ => [1, 1])
        (fun _ => [2, 2]) (fun _ => [3, 3]) 3 2 0 (fun _ _ => 5)
        ⟨fun _ => 9, fun _ => 8, fun _ _ => 7⟩ 42).2 =
      ⟨EventType.kDemul, 42⟩) :=
  ⟨⟨by decide, by decide, by decide⟩,
   unsupported_modulation_stale_c10 (fun _ => [1, 1]) (fun _ => [2, 2])
     (fun _ => [3, 3]) 3 2 0 (fun _ _ => 5)
     ⟨fun _ => 9, fun _ => 8, fun _ _ => 7⟩ 42
     (by decide) (by decide) (by decide)⟩

/-- Counterexample to claim C3 as stated: at modulation order 3 (none
of QPSK/16-QAM/64-QAM) the launch tail does not stop with a surfaced
fatal error — it runs to completion and returns the ordinary `kDemul`
completion event, with the LLR buffer untouched. -/
theorem unsupported_modulation_fatal_c3_counterexample :
    ((3 : ℕ) ≠ kQpsk ∧ (3 : ℕ) ≠ kQaM16 ∧ (3 : ℕ) ≠ kQaM64) ∧
    launchDemodStage (α := ℤ) (β := ℤ) (fun _ => [1]) (fun _ => [2])
      (fun _ => [3]) 3 1 4 (fun _ _ => 6)
      ⟨fun _ => 0, fun _ => 0, fun _ _ => 11⟩ 99 =
    (⟨fun _ => 0, fun _ => 0, fun _ _ => 11⟩,
     ⟨EventType.kDemul, 99⟩) :=
  ⟨⟨by decide, by decide, by decide⟩,
   launchDemodStage_default (fun _ => [1]) (fun _ => [2]) (fun _ => [3])
     3 1 4 (fun _ _ => 6) ⟨fun _ => 0, fun _ => 0, fun _ _ => 11⟩ 99
     (by decide) (by decide) (by decide)⟩

/-- Claim C3 (amended): an unsupported modulation order is not a
surfaced fatal error — the task logs and completes normally, emitting
the usual completion event — but it indeed leaves no zero-filled or
partially written LLR output: the buffer is simply untouched. -/
theorem unsupported_modulation_behavior_c3 {α β : Type}
    (kq k16 k64 : (ℕ → α) → List β) (modOrderBits ueNum baseScId : ℕ)
    (inputs : ℕ → ℕ → α) (st : LaunchState α β) (tag : ℕ)
    (h2 : modOrderBits ≠ kQpsk) (h4 : modOrderBits ≠ kQaM16)
    (h6 : modOrderBits ≠ kQaM64) :
    (launchDemodStage kq k16 k64 modOrderBits ueNum baseScId inputs st
        tag).1.llr = st.llr ∧
    (launchDemodStage kq k16 k64 modOrderBits ueNum baseScId inputs st
        tag).2.eventType = EventType.kDemul := by
  rw [launchDemodStage_default kq k16 k64 modOrderBits ueNum baseScId
    inputs st tag h2 h4 h6]
  exact ⟨rfl, rfl⟩

/-- Witness for the amended claim C3: modulation order 5, one UE. -/
theorem unsupported_modulation_behavior_c3_witness :
    ((5 : ℕ) ≠ kQpsk ∧ (5 : ℕ) ≠ kQaM16 ∧ (5 : ℕ) ≠ kQaM64) ∧
    ((launchDemodStage (α := ℤ) (β := ℤ) (fun _ => [1]) (fun _ => [2])
        (fun _ => [3]) 5 1 0 (fun _ _ => 4)
        ⟨fun _ => 2, fun _ => 3, fun _ _ => 13⟩ 8).1.llr =
      (fun _ _ => (13 : ℤ)) ∧
     (launchDemodStage (α := ℤ) (β := ℤ) (fun _ => [1]) (fun _ => [2])
        (fun _ => [3]) 5 1 0 (fun _ _ => 4)
        ⟨fun _ => 2, fun _ => 3, fun _ _ => 13⟩ 8).2.eventType =
      EventType.kDemul) :=
  ⟨⟨by decide, by decide, by decide⟩,
   unsupported_modulation_behavior_c3 (fun _ => [1]) (fun _ => [2])
     (fun _ => [3]) 5 1 0 (fun _ _ => 4)
     ⟨fun _ => 2, fun _ => 3, fun _ _ => 13⟩ 8
     (by decide) (by decide) (by decide)⟩

/-! ### Equalized-symbol storage: export buffer vs. transient scratch
(`dodemul.cc` lines 184-193 for the writes, lines 269-292 for the
transposed reads; `dodemul.cpp` lines 115-168)

When `kExportConstellation` the equalization loop stores each
subcarrier's UE vector at `equal_buffer_[…][cur_sc_id * UeNum]`;
otherwise it stores it at
`equaled_buffer_temp_[(cur_sc_id - base_sc_id) * UeNum]`.  The
demodulation transpose then reads UE `i`'s values at complex offsets
`base_sc_id * UeNum + i + k * UeNum` (export) or `i + k * UeNum`
(scratch). -/

/-- Writes of the equalization loop in export mode: the `n`-th
equalized value (subcarrier-major, UE-minor, `n < maxScIte * ueNum`)
lands at `equal_buffer_` position `baseScId * ueNum + n` and holds
`eq (base + n / ueNum) (n % ueNum)`, `eq sc u` being the equalized
value of absolute subcarrier `sc` for UE `u`. -/
def equalExportWrites {α : Type} (ueNum baseScId maxScIteVal : ℕ)
    (eq : ℕ → ℕ → α) : List (ℕ × α) :=
  (List.range (maxScIteVal * ueNum)).map fun n =>
    (baseScId * ueNum + n, eq (baseScId + n / ueNum) (n % ueNum))

/-- Writes of the equalization loop in scratch mode: the `n`-th
equalized value lands at `equaled_buffer_temp_` position `n`. -/
def equalScratchWrites {α : Type} (ueNum baseScId maxScIteVal : ℕ)
    (eq : ℕ → ℕ → α) : List (ℕ × α) :=
  (List.range (maxScIteVal * ueNum)).map fun n =>
    (n, eq (baseScId + n / ueNum) (n % ueNum))

/-- Transposed read of the demodulation stage in export mode
(`dodemul.cc` lines 276-288): UE `i`, sample `k` comes from complex
offset `base_sc_id * UeNum + i + k * UeNum`. -/
def transposeReadExport {α : Type} (buf : ℕ → α) (ueNum baseScId i k : ℕ) :
    α :=
  buf (baseScId * ueNum + i + k * ueNum)

/-- Transposed read of the demodulation stage in scratch mode
(`dodemul.cc` lines 280-288): UE `i`, sample `k` comes from complex
offset `i + k * ueNum`. -/
def transposeReadScratch {α : Type} (buf : ℕ → α) (ueNum i k : ℕ) : α :=
  buf (i + k * ueNum)

theorem equalExportWrites_entry {α : Type} (ueNum baseScId
    maxScIteVal : ℕ) (eq : ℕ → ℕ → α) (old : ℕ → α) (i k : ℕ)
    (hi : i < ueNum) (hk : k < maxScIteVal) :
    writeBuf (equalExportWrites ueNum baseScId maxScIteVal eq) old
      (baseScId * ueNum + (k * ueNum + i)) = eq (baseScId + k) i := by
  have hlt : k * ueNum + i < maxScIteVal * ueNum :=
    calc k * ueNum + i < (k + 1) * ueNum := by
          rw [add_mul, one_mul]; omega
    _ ≤ maxScIteVal * ueNum := Nat.mul_le_mul_right _ hk
  have hmem : (baseScId * ueNum + (k * ueNum + i),
      eq (baseScId + k) i) ∈
      equalExportWrites ueNum baseScId maxScIteVal eq := by
    refine List.mem_map.2 ⟨k * ueNum + i, List.mem_range.2 hlt, ?_⟩
    rw [rowMajor_div _ _ _ hi, rowMajor_mod _ _ _ hi]
  refine writeBuf_of_mem _ _ _ _ ?_ hmem
  have hfst : (equalExportWrites ueNum baseScId maxScIteVal eq).map
      Prod.fst =
      (List.range (maxScIteVal * ueNum)).map
        (fun n => baseScId * ueNum + n) := by
    simp [equalExportWrites, List.map_map, Function.comp_def]
  rw [hfst]
  exact (List.nodup_range _).map fun x y h => by omega

theorem equalScratchWrites_entry {α : Type} (ueNum baseScId
    maxScIteVal : ℕ) (eq : ℕ → ℕ → α) (old : ℕ → α) (i k : ℕ)
    (hi : i < ueNum) (hk : k < maxScIteVal) :
    writeBuf (equalScratchWrites ueNum baseScId maxScIteVal eq) old
      (k * ueNum + i) = eq (baseScId + k) i := by
  have hlt : k * ueNum + i < maxScIteVal * ueNum :=
    calc k * ueNum + i < (k + 1) * ueNum := by
          rw [add_mul, one_mul]; omega
    _ ≤ maxScIteVal * ueNum := Nat.mul_le_mul_right _ hk
  have hmem : (k * ueNum + i, eq (baseScId + k) i) ∈
      equalScratchWrites ueNum baseScId maxScIteVal eq := by
    refine List.mem_map.2 ⟨k * ueNum + i, List.mem_range.2 hlt, ?_⟩
    rw [rowMajor_div _ _ _ hi, rowMajor_mod _ _ _ hi]
  refine writeBuf_of_mem _ _ _ _ ?_ hmem
  have hfst : (equalScratchWrites ueNum baseScId maxScIteVal eq).map
      Prod.fst = List.range (maxScIteVal * ueNum) := by
    simp [equalScratchWrites, List.map_map, Function.comp_def]
  rw [hfst]
  exact List.nodup_range _

/-- Claim C8: for every task and configuration, the per-UE transposed
value stream handed to the demodulation kernels is identical whether
the equalized symbols were stored in the persistent export buffer or
in the transient scratch buffer, and therefore every demodulation
kernel produces identical LLR bytes from the two storages. -/
theorem equal_storage_equivalence_c8 {α : Type} (ueNum baseScId
    maxScIteVal : ℕ) (eq : ℕ → ℕ → α) (old junk : ℕ → α) :
    (fun (i : Fin ueNum) (k : Fin maxScIteVal) =>
      transposeReadExport
        (writeBuf (equalExportWrites ueNum baseScId maxScIteVal eq) old)
        ueNum baseScId i k) =
    (fun (i : Fin ueNum) (k : Fin maxScIteVal) =>
      transposeReadScratch
        (writeBuf (equalScratchWrites ueNum baseScId maxScIteVal eq)
          junk)
        ueNum i k) ∧
    ∀ (γ : Type)
      (demodKernel : (Fin ueNum → Fin maxScIteVal → α) → γ),
      demodKernel (fun i k =>
        transposeReadExport
          (writeBuf (equalExportWrites ueNum baseScId maxScIteVal eq)
            old) ueNum baseScId i k) =
      demodKernel (fun i k =>
        transposeReadScratch
          (writeBuf (equalScratchWrites ueNum baseScId maxScIteVal eq)
            junk) ueNum i k) := by
  have hstream : (fun (i : Fin ueNum) (k : Fin maxScIteVal) =>
      transposeReadExport
        (writeBuf (equalExportWrites ueNum baseScId maxScIteVal eq) old)
        ueNum baseScId i k) =
      (fun (i : Fin ueNum) (k : Fin maxScIteVal) =>
        transposeReadScratch
          (writeBuf (equalScratchWrites ueNum baseScId maxScIteVal eq)
            junk) ueNum i k) := by
    funext i k
    unfold transposeReadExport transposeReadScratch
    have hpos : baseScId * ueNum + (i : ℕ) + (k : ℕ) * ueNum =
        baseScId * ueNum + ((k : ℕ) * ueNum + (i : ℕ)) := by omega
    have hpos2 : (i : ℕ) + (k : ℕ) * ueNum =
        (k : ℕ) * ueNum + (i : ℕ) := by omega
    rw [hpos, hpos2,
      equalExportWrites_entry ueNum baseScId maxScIteVal eq old i k
        i.isLt k.isLt,
      equalScratchWrites_entry ueNum baseScId maxScIteVal eq junk i k
        i.isLt k.isLt]
  exact ⟨hstream, fun γ demodKernel => congrArg demodKernel hstream⟩

end AgoraDemul
